import Mathlib

/-!
# Verification of the diesel core: Identifiable binding and query algebra

This development embeds the two subsystems of the repository:

1. The `impl_Identifiable!` macro of `src/diesel/src/macros/identifiable.rs`:
   a declarative rule cascade over a copy-pasted struct declaration that
   generates a `HasTable` impl and an `Identifiable` impl whose `id()` body is
   literally `&self.id`.  We model the macro input after the shapes the rules
   distinguish (the leading attribute list, the optional `pub`, the struct
   name, its lifetime parameters, and the ordered field list) and the
   expansion as a function returning `Option` of the generated impl data:
   `none` means no macro rule matches, i.e. a build-time failure.

2. The query expression algebra and execution layer exercised by
   `src/tests/filter.rs` (`filter`, `select`, `inner_join`, `eq`, `and`,
   `query_one`, `query_all`).  Its implementation is not part of this file
   set, so those definitions are modelled from the spec: SQL values with
   NULL, three-valued logic for predicates, queries as an immutable source +
   optional filter predicate + projection, and result sets as lists of rows.
-/

namespace Diesel

/-! ## Part 1: the `impl_Identifiable!` macro -/

/-- A metadata attribute `#[...]` appearing before the struct keyword in the
macro input: either the `#[table_name(t)]` attribute the macro consumes
(rule at lines 32-41) or any other meta item (stripped by the rule at
lines 44-50). -/
inductive Attr where
  | tableName (t : String)
  | other (m : String)
deriving DecidableEq

/-- One field of the struct body, as produced for the macro by the external
struct-body parser: the rules at lines 62-108 match on
`field_name`/`field_ty` entries in declaration order. -/
structure FieldDecl where
  fname : String
  fty : String
deriving DecidableEq

/-- The complete input of an `impl_Identifiable!` invocation: the leading
attributes, whether `pub` precedes `struct` (stripped by the rule at lines
54-59 in either case), the struct name, its declared lifetime parameters
(rules at lines 111-125 and 128-142), and the ordered field list. -/
structure StructInput where
  attrs : List Attr
  isPub : Bool
  sname : String
  lifetimes : List String
  fields : List FieldDecl
deriving DecidableEq

/-- The data of the generated impls (lines 76-91): the table module for
`HasTable`, the struct type and its lifetimes threaded into both impls, and
the declared type of the found `id` field, used as `type Id = &'ident ty`. -/
structure Generated where
  tblName : String
  structTy : String
  lifetimes : List String
  idTy : String
deriving DecidableEq

/-- Attribute processing of `impl_Identifiable!` (rules at lines 32-50).
The first rule only fires when `#[table_name(..)]` is the literal first
attribute of the invocation; the strip rule at lines 44-50 requires an
already-accumulated `$args:tt` before the attribute being stripped, so it
cannot fire on the initial invocation.  When a different attribute (or no
attribute at all) comes first, no rule of the cascade matches the token
shape and expansion fails.  Once the table name has been consumed, every
following attribute, whatever it is, matches `#[$ignore:meta]` and is
dropped. -/
def collectTableName : List Attr → Option String
  | Attr.tableName t :: _ => some t
  | _ => none

/-- The field search of `impl_Identifiable!` (rules at lines 62-108): the
rule at lines 62-91 fires when the first remaining field is literally named
`id`, recording its declared type; otherwise the rule at lines 94-108 drops
the first field and recurses.  An exhausted field list matches neither rule
(both require at least one field), so the expansion fails. -/
def findIdField : List FieldDecl → Option FieldDecl
  | [] => none
  | f :: fs => if f.fname = "id" then some f else findIdField fs

/-- Full expansion of one `impl_Identifiable!` invocation.  `none` models a
build-time failure: no rule of the macro matches.  The `pub` marker is
stripped whether present or not (`$(pub)*` at line 56) and the lifetime
list is threaded through unchanged by the rules at lines 111-142, so
neither influences success. -/
def expandIdentifiable (inp : StructInput) : Option Generated :=
  match collectTableName inp.attrs with
  | none => none
  | some tbl =>
    match findIdField inp.fields with
    | none => none
    | some f => some ⟨tbl, inp.sname, inp.lifetimes, f.fty⟩

/-- Index of the first field with the given name in a record value laid out
as an ordered list of named slots. -/
def fieldIndex {α : Type} : List (String × α) → String → Option Nat
  | [], _ => none
  | p :: ps, n => if p.fst = n then some 0 else (fieldIndex ps n).map (· + 1)

/-- The body of the generated `Identifiable::id` is literally `&self.id`
(line 88): a borrow of the record field named `id`.  We model a record of
value type `α` as its ordered slots starting at address `base`; the borrow
is then the address of the `id` slot itself — no new cell is allocated and
no value is copied. -/
def idFieldRef {α : Type} (base : Nat) (r : List (String × α)) : Option Nat :=
  (fieldIndex r "id").map (base + ·)

/-- Reading the slot of record `r` (based at `base`) that address `a`
points to. -/
def readSlot {α : Type} (base : Nat) (r : List (String × α)) (a : Nat) : Option α :=
  (r[a - base]?).map Prod.snd

/-! ## Part 2: the query algebra (modelled from the spec) -/

/-- Modelled from the spec: a runtime SQL value — integer, text, or NULL.
The spec's Expression nodes carry SQL types only at the (compile-time) type
level; at the value level a nullable column holds either a value or NULL. -/
inductive SqlVal where
  | vInt (n : Int)
  | vStr (s : String)
  | vNull
deriving DecidableEq

/-- Modelled from the spec: a decoded result row, mapping column names to
values in projection order. -/
abbrev Row := List (String × SqlVal)

/-- Modelled from the spec: the value a row holds in a column; a column the
row does not mention is NULL. -/
def getCol (r : Row) (c : String) : SqlVal :=
  match r.find? (fun p => p.fst = c) with
  | some p => p.snd
  | none => SqlVal.vNull

/-- Modelled from the spec: SQL three-valued logic — true, false, unknown. -/
inductive TV where
  | tt
  | ff
  | unk
deriving DecidableEq

/-- Modelled from the spec: three-valued conjunction, the evaluation of the
`and` Expression node. -/
def TV.andTV : TV → TV → TV
  | TV.ff, _ => TV.ff
  | _, TV.ff => TV.ff
  | TV.tt, TV.tt => TV.tt
  | _, _ => TV.unk

/-- Modelled from the spec: a value-level operand of `eq` — a column
reference or a literal/bound value. -/
inductive VExpr where
  | col (c : String)
  | lit (v : SqlVal)
deriving DecidableEq

/-- Modelled from the spec: evaluating an operand against one source row. -/
def VExpr.eval (e : VExpr) (r : Row) : SqlVal :=
  match e with
  | VExpr.col c => getCol r c
  | VExpr.lit v => v

/-- Modelled from the spec: a boolean-typed predicate Expression —
`column.eq(value)` or `expr_a.and(expr_b)`.  Expressions are structurally
composed, never mutated. -/
inductive Pred where
  | eq (a b : VExpr)
  | and (p q : Pred)
deriving DecidableEq

/-- Modelled from the spec: predicate evaluation under SQL three-valued
logic.  Equality with a NULL operand is unknown — never true — consistent
with standard three-valued logic; `and` is three-valued conjunction. -/
def Pred.eval : Pred → Row → TV
  | Pred.eq a b, r =>
    match a.eval r, b.eval r with
    | SqlVal.vNull, _ => TV.unk
    | _, SqlVal.vNull => TV.unk
    | x, y => if x = y then TV.tt else TV.ff
  | Pred.and p q, r => TV.andTV (p.eval r) (q.eval r)

/-- Modelled from the spec: a row satisfies a filter predicate exactly when
the predicate evaluates to true (unknown does not match). -/
def Pred.holds (p : Pred) (r : Row) : Bool :=
  decide (p.eval r = TV.tt)

/-- Modelled from the spec: the projection of a query — the full record, or
one selected column. -/
inductive Proj where
  | star
  | one (c : String)
deriving DecidableEq

/-- Modelled from the spec: a Query is a source (its rows), an optional
filter Expression, and a projection.  Combinators return new immutable
Query values. -/
structure Query where
  src : List Row
  cond : Option Pred
  proj : Proj
deriving DecidableEq

/-- Modelled from the spec: a table used as a query source selects the full
record of every row. -/
def Query.ofTable (t : List Row) : Query :=
  ⟨t, none, Proj.star⟩

/-- Modelled from the spec: `filter` attaches the predicate; calling
`filter` on an already-filtered query combines both predicates with `and`,
never replacing the prior filter. -/
def Query.filter (q : Query) (p : Pred) : Query :=
  { q with cond :=
      match q.cond with
      | none => some p
      | some a => some (a.and p) }

/-- Modelled from the spec: `select` narrows the projection to the given
column; the filter operates on source rows regardless of projection. -/
def Query.select (q : Query) (c : String) : Query :=
  { q with proj := Proj.one c }

/-- Modelled from the spec: decoding one matched source row under the
query's projection. -/
def applyProj (pj : Proj) (r : Row) : Row :=
  match pj with
  | Proj.star => r
  | Proj.one c => [(c, getCol r c)]

/-- Modelled from the spec: the source rows a query matches — those on
which the filter predicate (if any) holds. -/
def Query.matchRows (q : Query) : List Row :=
  q.src.filter (fun r =>
    match q.cond with
    | none => true
    | some p => p.holds r)

/-- Modelled from the spec: the result set of a query (what `query_all`
yields, in source order) — each matched source row decoded under the
projection. -/
def Query.run (q : Query) : List Row :=
  q.matchRows.map (applyProj q.proj)

/-- Modelled from the spec: `connection.query_one` returns the decoded
first row when one or more rows matched, and `none` when zero matched. -/
def queryOne (q : Query) : Option Row :=
  q.run.head?

/-- Modelled from the spec: two-valued SQL equality of values as used for a
join key — a NULL operand never matches. -/
def sqlEqB (x y : SqlVal) : Bool :=
  match x, y with
  | SqlVal.vNull, _ => false
  | _, SqlVal.vNull => false
  | x, y => decide (x = y)

/-- Modelled from the spec: `table_a.inner_join(table_b)` — the composite
source pairing each left row with every right row whose declared
foreign-key column `fk` equals the left row's key column `pk`; the result
shape is a tuple of (record_a, record_b). -/
def innerJoin : List Row → List Row → String → String → List (Row × Row)
  | [], _, _, _ => []
  | a :: as, tb, pk, fk =>
    (tb.filter (fun b => sqlEqB (getCol a pk) (getCol b fk))).map (fun b => (a, b))
      ++ innerJoin as tb pk fk

/-- Modelled from the spec: filtering a joined source by a predicate over
the left table — the predicate is evaluated on the left row of each pair. -/
def joinFilter (js : List (Row × Row)) (p : Pred) : List (Row × Row) :=
  js.filter (fun ab => p.holds ab.fst)

/-- Modelled from the spec: `query_one` on a joined query — the first
matched pair, or `none` when zero pairs matched. -/
def queryOnePairs (js : List (Row × Row)) : Option (Row × Row) :=
  js.head?

/-! ### Concrete fixtures mirroring the data of `src/tests/filter.rs` -/

/-- The row of Sean, as inserted by `connection_with_sean_and_tess_in_users_table`. -/
def seanRow : Row := [("id", SqlVal.vInt 1), ("name", SqlVal.vStr "Sean")]

/-- The row of Tess. -/
def tessRow : Row := [("id", SqlVal.vInt 2), ("name", SqlVal.vStr "Tess")]

/-- The users table of the filter tests. -/
def demoUsers : List Row := [seanRow, tessRow]

/-- The post of Sean, from `filter_after_joining`. -/
def helloPost : Row :=
  [("id", SqlVal.vInt 1), ("user_id", SqlVal.vInt 1), ("title", SqlVal.vStr "Hello")]

/-- The post of Tess. -/
def worldPost : Row :=
  [("id", SqlVal.vInt 2), ("user_id", SqlVal.vInt 2), ("title", SqlVal.vStr "World")]

/-- The posts table of `filter_after_joining`. -/
def demoPosts : List Row := [helloPost, worldPost]

/-- A user whose nullable `hair_color` column is NULL, as in
`filter_on_multiple_columns`. -/
def baldJimRow : Row :=
  [("id", SqlVal.vInt 3), ("name", SqlVal.vStr "Jim"), ("hair_color", SqlVal.vNull)]

/-- A users table with a NULL row in the nullable `hair_color` column. -/
def hairUsers : List Row :=
  [[("id", SqlVal.vInt 1), ("name", SqlVal.vStr "Sean"), ("hair_color", SqlVal.vStr "black")],
   baldJimRow]

/-! ## Helper lemmas -/

theorem findIdField_append_id (pre post : List FieldDecl) (ty : String)
    (hpre : ∀ f ∈ pre, f.fname ≠ "id") :
    findIdField (pre ++ FieldDecl.mk "id" ty :: post) = some (FieldDecl.mk "id" ty) := by
  induction pre with
  | nil => simp [findIdField]
  | cons f fs ih =>
    have hf : f.fname ≠ "id" := hpre f (List.mem_cons_self f fs)
    rw [List.cons_append, findIdField, if_neg hf]
    exact ih (fun g hg => hpre g (List.mem_cons_of_mem f hg))

theorem findIdField_isSome (fields : List FieldDecl) (f : FieldDecl)
    (hf : f ∈ fields) (hid : f.fname = "id") :
    (findIdField fields).isSome = true := by
  induction fields with
  | nil => cases hf
  | cons g gs ih =>
    by_cases hg : g.fname = "id"
    · simp [findIdField, hg]
    · rcases List.mem_cons.mp hf with rfl | hmem
      · exact absurd hid hg
      · rw [findIdField, if_neg hg]
        exact ih hmem

theorem findIdField_eq_none (fields : List FieldDecl)
    (h : ∀ f ∈ fields, f.fname ≠ "id") :
    findIdField fields = none := by
  induction fields with
  | nil => rfl
  | cons g gs ih =>
    rw [findIdField, if_neg (h g (List.mem_cons_self g gs))]
    exact ih (fun f hf => h f (List.mem_cons_of_mem g hf))

theorem fieldIndex_append_id {α : Type} (vpre vpost : List (String × α)) (v : α)
    (hvpre : ∀ p ∈ vpre, p.fst ≠ "id") :
    fieldIndex (vpre ++ ("id", v) :: vpost) "id" = some vpre.length := by
  induction vpre with
  | nil => simp [fieldIndex]
  | cons p ps ih =>
    have hp : p.fst ≠ "id" := hvpre p (List.mem_cons_self p ps)
    rw [List.cons_append, fieldIndex, if_neg hp,
      ih (fun q hq => hvpre q (List.mem_cons_of_mem p hq))]
    rfl

/-! ## Claim theorems -/

/-- C1: for every record type declared with a field named `id`, in any
position of the field list, `impl_Identifiable!` expands successfully and
the generated `id()` body `&self.id` is a borrow of exactly the record's
`id` slot: it returns the address of that slot (no copy of the key is
made into a new cell), and reading that address yields the `id` field's
value. -/
theorem identifiable_id_any_position {α : Type}
    (tbl : String) (extras : List Attr) (pb : Bool) (sn : String) (lts : List String)
    (pre post : List FieldDecl) (ty : String)
    (base : Nat) (vpre vpost : List (String × α)) (v : α)
    (hpre : ∀ f ∈ pre, f.fname ≠ "id")
    (hvpre : ∀ p ∈ vpre, p.fst ≠ "id") :
    expandIdentifiable ⟨Attr.tableName tbl :: extras, pb, sn, lts,
        pre ++ FieldDecl.mk "id" ty :: post⟩ = some ⟨tbl, sn, lts, ty⟩
    ∧ idFieldRef base (vpre ++ ("id", v) :: vpost) = some (base + vpre.length)
    ∧ readSlot base (vpre ++ ("id", v) :: vpost) (base + vpre.length) = some v := by
  refine ⟨?_, ?_, ?_⟩
  · simp only [expandIdentifiable, collectTableName,
      findIdField_append_id pre post ty hpre]
  · rw [idFieldRef, fieldIndex_append_id vpre vpost v hvpre]
    rfl
  · rw [readSlot, Nat.add_sub_cancel_left,
      List.getElem?_append_right (Nat.le_refl vpre.length), Nat.sub_self]
    simp

/-- Witness for C1 at the shape of `derive_identifiable_when_id_is_not_first_field`:
`id` is the second field. -/
theorem identifiable_id_any_position_witness :
    expandIdentifiable ⟨[Attr.tableName "foos"], false, "Foo", [],
        [FieldDecl.mk "foo" "i32", FieldDecl.mk "id" "i32"]⟩
      = some ⟨"foos", "Foo", [], "i32"⟩
    ∧ idFieldRef 100 [("foo", (2 : Int)), ("id", (1 : Int))] = some 101
    ∧ readSlot 100 [("foo", (2 : Int)), ("id", (1 : Int))] 101 = some 1 := by
  exact identifiable_id_any_position "foos" [] false "Foo" []
    [FieldDecl.mk "foo" "i32"] [] "i32" 100 [("foo", (2 : Int))] [] 1
    (by decide) (by decide)

/-- C8: a declaration carrying multiple metadata attributes other than the
table-name attribute is accepted: each such attribute is skipped by the
rule at lines 44-50, and the expansion is the same as without them. -/
theorem extra_attrs_skipped (tbl : String) (extras : List Attr) (pb : Bool)
    (sn : String) (lts : List String) (fields : List FieldDecl) (f : FieldDecl)
    (hf : f ∈ fields) (hid : f.fname = "id") :
    (expandIdentifiable ⟨Attr.tableName tbl :: extras, pb, sn, lts, fields⟩).isSome = true
    ∧ expandIdentifiable ⟨Attr.tableName tbl :: extras, pb, sn, lts, fields⟩
        = expandIdentifiable ⟨[Attr.tableName tbl], pb, sn, lts, fields⟩ := by
  constructor
  · have hs := findIdField_isSome fields f hf hid
    rw [expandIdentifiable]
    cases h : findIdField fields with
    | none => rw [h] at hs; cases hs
    | some g => simp [collectTableName, h]
  · rfl

/-- Witness for C8: two extra metadata attributes after the table-name
attribute are skipped and expansion succeeds. -/
theorem extra_attrs_skipped_witness :
    (expandIdentifiable ⟨[Attr.tableName "foos", Attr.other "derive",
        Attr.other "allow_dead_code"], false, "Foo", [],
        [FieldDecl.mk "id" "i32", FieldDecl.mk "foo" "i32"]⟩).isSome = true
    ∧ expandIdentifiable ⟨[Attr.tableName "foos", Attr.other "derive",
        Attr.other "allow_dead_code"], false, "Foo", [],
        [FieldDecl.mk "id" "i32", FieldDecl.mk "foo" "i32"]⟩
      = expandIdentifiable ⟨[Attr.tableName "foos"], false, "Foo", [],
        [FieldDecl.mk "id" "i32", FieldDecl.mk "foo" "i32"]⟩ := by
  exact extra_attrs_skipped "foos" [Attr.other "derive", Attr.other "allow_dead_code"]
    false "Foo" [] [FieldDecl.mk "id" "i32", FieldDecl.mk "foo" "i32"]
    (FieldDecl.mk "id" "i32") (by decide) rfl

/-- C9: a declaration with zero fields, or whose field list has no field
literally named `id`, makes the expansion fail at build time (the field
search exhausts the list and no rule matches); no incomplete binding is
produced. -/
theorem missing_id_build_failure (attrs : List Attr) (pb : Bool) (sn : String)
    (lts : List String) (fields : List FieldDecl)
    (hid : ∀ f ∈ fields, f.fname ≠ "id") :
    expandIdentifiable ⟨attrs, pb, sn, lts, fields⟩ = none := by
  rw [expandIdentifiable]
  cases hc : collectTableName attrs with
  | none => rfl
  | some tbl => rw [findIdField_eq_none fields hid]

/-- Witness for C9 at the zero-field case. -/
theorem missing_id_build_failure_witness :
    expandIdentifiable ⟨[Attr.tableName "foos"], false, "Foo", [], []⟩ = none := by
  exact missing_id_build_failure [Attr.tableName "foos"] false "Foo" [] [] (by decide)

/-- C10: `impl_Identifiable!` requires `#[table_name(..)]` to be the first
attribute of its input: when any other attribute precedes it, no macro
rule matches and the invocation fails at build time. -/
theorem attr_before_table_name_fails (m : String) (rest : List Attr) (pb : Bool)
    (sn : String) (lts : List String) (fields : List FieldDecl) :
    expandIdentifiable ⟨Attr.other m :: rest, pb, sn, lts, fields⟩ = none := rfl

theorem andTV_assoc (a b c : TV) :
    TV.andTV (TV.andTV a b) c = TV.andTV a (TV.andTV b c) := by
  cases a <;> cases b <;> cases c <;> rfl

theorem holds_and_assoc (a b c : Pred) (r : Row) :
    ((a.and b).and c).holds r = (a.and (b.and c)).holds r := by
  simp only [Pred.holds, Pred.eval, andTV_assoc]

theorem applyProj_star : applyProj Proj.star = fun r => r := rfl

theorem run_ofTable_filter (t : List Row) (p : Pred) :
    ((Query.ofTable t).filter p).run = t.filter (fun r => p.holds r) := by
  simp only [Query.ofTable, Query.filter, Query.run, Query.matchRows, applyProj_star,
    List.map_id']

theorem holds_eq_iff (a b : VExpr) (r : Row) :
    (Pred.eq a b).holds r = true
      ↔ a.eval r ≠ SqlVal.vNull ∧ b.eval r ≠ SqlVal.vNull ∧ a.eval r = b.eval r := by
  cases ha : a.eval r <;> cases hb : b.eval r <;>
    simp only [Pred.holds, Pred.eval, ha, hb, decide_eq_true_eq] <;>
    simp_all

theorem filter_head_unique {α : Type} (p : α → Bool) (t : List α) (r : α)
    (hr : r ∈ t) (hp : p r = true) (huniq : ∀ s ∈ t, p s = true → s = r) :
    (t.filter p).head? = some r := by
  induction t with
  | nil => cases hr
  | cons a as ih =>
    by_cases ha : p a = true
    · have har : a = r := huniq a (List.mem_cons_self a as) ha
      rw [List.filter_cons_of_pos ha, List.head?_cons, har]
    · rw [List.filter_cons_of_neg (by simpa using ha)]
      rcases List.mem_cons.mp hr with rfl | hmem
      · exact absurd hp ha
      · exact ih hmem (fun s hs => huniq s (List.mem_cons_of_mem a hs))

theorem mem_innerJoin {tb : List Row} {pk fk : String} {ta : List Row} {ab : Row × Row}
    (h : ab ∈ innerJoin ta tb pk fk) :
    ab.fst ∈ ta ∧ ab.snd ∈ tb ∧ sqlEqB (getCol ab.fst pk) (getCol ab.snd fk) = true := by
  induction ta with
  | nil => cases h
  | cons a as ih =>
    rw [innerJoin] at h
    rcases List.mem_append.mp h with h1 | h2
    · rcases List.mem_map.mp h1 with ⟨b, hb, hab⟩
      have hbf := List.mem_filter.mp hb
      subst hab
      exact ⟨List.mem_cons_self a as, hbf.1, by simpa using hbf.2⟩
    · have h3 := ih h2
      exact ⟨List.mem_cons_of_mem a h3.1, h3.2.1, h3.2.2⟩

/-- C2: a second `filter` call conjoins with the existing predicate and
never replaces it: for every query (in particular every table) and every
pair of predicates, `filter(a).filter(b)` and `filter(a.and(b))` produce
exactly the same result set. -/
theorem filter_filter_eq_filter_and (q : Query) (a b : Pred) :
    ((q.filter a).filter b).run = (q.filter (a.and b)).run := by
  obtain ⟨src, cond, proj⟩ := q
  cases cond with
  | none => rfl
  | some c =>
    simp only [Query.filter, Query.run, Query.matchRows]
    exact congrArg _ (List.filter_congr (fun r _ => holds_and_assoc c a b r))

/-- C3: `select` and `filter` commute: `select(col).filter(pred)` and
`filter(pred).select(col)` build the same query and produce identical
result sets, because the filter operates on source rows regardless of
projection. -/
theorem select_filter_commute (q : Query) (p : Pred) (c : String) :
    ((q.select c).filter p).run = ((q.filter p).select c).run := rfl

/-- C4: equality against NULL never matches: a row whose value in the
filtered column is NULL is excluded from the result set of
`filter(col.eq(v))` for every non-null literal `v`. -/
theorem null_never_matches_eq (t : List Row) (c : String) (v : SqlVal) (r : Row)
    (hv : v ≠ SqlVal.vNull) (hr : getCol r c = SqlVal.vNull) :
    r ∉ ((Query.ofTable t).filter (Pred.eq (VExpr.col c) (VExpr.lit v))).run := by
  rw [run_ofTable_filter]
  intro hmem
  have h := (List.mem_filter.mp hmem).2
  have hiff := (holds_eq_iff (VExpr.col c) (VExpr.lit v) r).mp h
  exact hiff.1 hr

/-- Witness for C4: Jim's NULL `hair_color` row is excluded by
`filter(hair_color.eq("black"))`. -/
theorem null_never_matches_eq_witness :
    baldJimRow ∉ ((Query.ofTable hairUsers).filter
      (Pred.eq (VExpr.col "hair_color") (VExpr.lit (SqlVal.vStr "black")))).run := by
  exact null_never_matches_eq hairUsers "hair_color" (SqlVal.vStr "black") baldJimRow
    (by decide) (by decide)

/-- C5: `query_one` returns the decoded first row when one or more rows
match and `none` when zero match; filtering a table by primary-key
equality with an inserted record's id (unique, non-null ids) yields
exactly that record, and a key not present yields `none`. -/
theorem query_one_pk_roundtrip (t : List Row) (pk : String) (r : Row) (v : SqlVal)
    (hmem : r ∈ t) (hnn : getCol r pk ≠ SqlVal.vNull)
    (huniq : ∀ r1 ∈ t, ∀ r2 ∈ t, getCol r1 pk = getCol r2 pk → r1 = r2) :
    queryOne ((Query.ofTable t).filter
        (Pred.eq (VExpr.col pk) (VExpr.lit (getCol r pk)))) = some r
    ∧ ((∀ s ∈ t, getCol s pk ≠ v) →
        queryOne ((Query.ofTable t).filter
          (Pred.eq (VExpr.col pk) (VExpr.lit v))) = none)
    ∧ (∀ q : Query, queryOne q = none ↔ q.run = []) := by
  refine ⟨?_, ?_, ?_⟩
  · rw [queryOne, run_ofTable_filter]
    apply filter_head_unique _ t r hmem
    · exact (holds_eq_iff (VExpr.col pk) (VExpr.lit (getCol r pk)) r).mpr
        ⟨hnn, hnn, rfl⟩
    · intro s hs hps
      have h := (holds_eq_iff (VExpr.col pk) (VExpr.lit (getCol r pk)) s).mp hps
      exact huniq s hs r hmem h.2.2
  · intro hall
    rw [queryOne, run_ofTable_filter, List.filter_eq_nil_iff.mpr ?_]
    · rfl
    · intro s hs hps
      have h := (holds_eq_iff (VExpr.col pk) (VExpr.lit v) s).mp (by simpa using hps)
      exact hall s hs h.2.2
  · intro q
    rw [queryOne]
    exact List.head?_eq_none_iff

/-- Witness for C5: in the users table of the tests, filtering by
`id.eq(1)` yields Sean's row, and filtering by the absent key 3 yields
`none`. -/
theorem query_one_pk_roundtrip_witness :
    queryOne ((Query.ofTable demoUsers).filter
        (Pred.eq (VExpr.col "id") (VExpr.lit (getCol seanRow "id")))) = some seanRow
    ∧ queryOne ((Query.ofTable demoUsers).filter
        (Pred.eq (VExpr.col "id") (VExpr.lit (SqlVal.vInt 3)))) = none := by
  have h := query_one_pk_roundtrip demoUsers "id" seanRow (SqlVal.vInt 3)
    (by decide) (by decide) (by decide)
  exact ⟨h.1, h.2.1 (by decide)⟩

/-- C6: filtering an inner join by a predicate over the left table returns
only pairs whose join key matches and whose left row satisfies the
predicate; when no left row satisfies it, the result is empty and
`query_one` returns `none`. -/
theorem inner_join_filter_left (ta tb : List Row) (pk fk : String) (p : Pred) :
    (∀ ab ∈ joinFilter (innerJoin ta tb pk fk) p,
        ab.fst ∈ ta ∧ ab.snd ∈ tb
          ∧ sqlEqB (getCol ab.fst pk) (getCol ab.snd fk) = true
          ∧ p.holds ab.fst = true)
    ∧ ((∀ a ∈ ta, p.holds a = false) →
        queryOnePairs (joinFilter (innerJoin ta tb pk fk) p) = none) := by
  constructor
  · intro ab hab
    have h1 := List.mem_filter.mp hab
    have h2 := mem_innerJoin h1.1
    exact ⟨h2.1, h2.2.1, h2.2.2, by simpa using h1.2⟩
  · intro hall
    rw [queryOnePairs, joinFilter, List.filter_eq_nil_iff.mpr ?_]
    · rfl
    · intro ab hab hold
      have h2 := mem_innerJoin hab
      have hfalse := hall ab.fst h2.1
      rw [hfalse] at hold
      cases hold

/-- Witness for C6 at the data of `filter_after_joining`: the pair of Sean
and his post is a match for `name.eq("Sean")`, and `name.eq("Jim")`
matches no left row, so `query_one` is `none`. -/
theorem inner_join_filter_left_witness :
    (seanRow ∈ demoUsers ∧ helloPost ∈ demoPosts
      ∧ sqlEqB (getCol seanRow "id") (getCol helloPost "user_id") = true
      ∧ (Pred.eq (VExpr.col "name") (VExpr.lit (SqlVal.vStr "Sean"))).holds seanRow = true)
    ∧ queryOnePairs (joinFilter (innerJoin demoUsers demoPosts "id" "user_id")
        (Pred.eq (VExpr.col "name") (VExpr.lit (SqlVal.vStr "Jim")))) = none := by
  exact ⟨(inner_join_filter_left demoUsers demoPosts "id" "user_id"
      (Pred.eq (VExpr.col "name") (VExpr.lit (SqlVal.vStr "Sean")))).1
        (seanRow, helloPost) (by decide),
    (inner_join_filter_left demoUsers demoPosts "id" "user_id"
      (Pred.eq (VExpr.col "name") (VExpr.lit (SqlVal.vStr "Jim")))).2 (by decide)⟩

/-- C7 counterexample: on a table with one row holding NULL in both `x`
and `y`, the values of the two columns are equal, yet
`filter(x.eq(y))` returns the empty result set — so `filter(x.eq(y))`
does not return every row in which the value of column x equals the value
of column y. -/
theorem col_eq_col_counterexample :
    getCol [("x", SqlVal.vNull), ("y", SqlVal.vNull)] "x"
      = getCol [("x", SqlVal.vNull), ("y", SqlVal.vNull)] "y"
    ∧ ((Query.ofTable [[("x", SqlVal.vNull), ("y", SqlVal.vNull)]]).filter
        (Pred.eq (VExpr.col "x") (VExpr.col "y"))).run = [] := by
  decide

/-- C7 (amended): `filter(x.eq(y))` returns exactly the rows in which
columns x and y hold equal non-NULL values — a row where either column is
NULL is excluded, per SQL three-valued logic. -/
theorem col_eq_col_nonnull (t : List Row) (x y : String) (r : Row) :
    r ∈ ((Query.ofTable t).filter (Pred.eq (VExpr.col x) (VExpr.col y))).run
      ↔ r ∈ t ∧ getCol r x ≠ SqlVal.vNull ∧ getCol r y ≠ SqlVal.vNull
          ∧ getCol r x = getCol r y := by
  rw [run_ofTable_filter, List.mem_filter]
  constructor
  · rintro ⟨hm, hp⟩
    have h := (holds_eq_iff (VExpr.col x) (VExpr.col y) r).mp (by simpa using hp)
    exact ⟨hm, h.1, h.2.1, h.2.2⟩
  · rintro ⟨hm, h1, h2, h3⟩
    exact ⟨hm, by
      simpa using (holds_eq_iff (VExpr.col x) (VExpr.col y) r).mpr ⟨h1, h2, h3⟩⟩

end Diesel
